import Mathlib

/-!
Shallow embedding of the akavelog backend input pipeline, checked against its
natural-language specification.

Modelled source files:
* internal/infrastructure/inputs/httpinput (factory.go, input.go): listen-address
  validation, the per-request ingest handler, start/stop lifecycle;
* internal/handler/inputs.go: CreateInput / UpdateInput / DeleteInput with the
  instance map and its mutex;
* internal/repository/input.go: the input store (modelled as a list of rows);
* internal/storage/o3.go: PutObject / GetObjectLogs.

Conventions used throughout:
* Go strings and byte slices whose byte-level structure matters (request bodies,
  buffer payloads, object bodies) are `List Nat` (one Nat per byte); strings that
  are only compared or concatenated stay `String`.
* Go `map[string]any` configuration values become association lists over `CVal`;
  `json.Marshal` of a configuration followed by `json.Unmarshal` is the identity
  on this representation, so rows store the map itself.
* Go's `v, _ := x.(string)` type assertion is `asString` (non-strings give "").
* The relational store is a list of rows; store calls never fail in the model
  (database errors are environmental, not program logic).
* `uuid.New()` results and `time.Now()` are explicit parameters.
-/

namespace Akavelog

/-- Association-list lookup, modelling Go map indexing `m[k]` (comma-ok form). -/
def lookupKey {α : Type} : List (String × α) → String → Option α
  | [], _ => none
  | (k, v) :: rest, key => if k = key then some v else lookupKey rest key

/-- Association-list update, modelling Go map assignment `m[k] = v`. -/
def setKey {α : Type} : List (String × α) → String → α → List (String × α)
  | [], key, v => [(key, v)]
  | (k, w) :: rest, key, v =>
      if k = key then (k, v) :: rest else (k, w) :: setKey rest key v

/-- Association-list removal, modelling Go `delete(m, k)`. -/
def eraseKey {α : Type} : List (String × α) → String → List (String × α)
  | [], _ => []
  | (k, w) :: rest, key =>
      if k = key then eraseKey rest key else (k, w) :: eraseKey rest key

theorem lookupKey_setKey_self {α : Type} (l : List (String × α)) (k : String) (v : α) :
    lookupKey (setKey l k v) k = some v := by
  induction l with
  | nil => simp [setKey, lookupKey]
  | cons hd tl ih =>
      obtain ⟨k', v'⟩ := hd
      by_cases h : k' = k
      · simp [setKey, lookupKey, h]
      · simp [setKey, lookupKey, h, ih]

theorem lookupKey_setKey_ne {α : Type} (l : List (String × α)) (k k' : String) (v : α)
    (h : k' ≠ k) : lookupKey (setKey l k v) k' = lookupKey l k' := by
  induction l with
  | nil =>
      simp only [setKey, lookupKey]
      rw [if_neg fun hk => h hk.symm]
  | cons hd tl ih =>
      obtain ⟨k0, v0⟩ := hd
      by_cases h0 : k0 = k
      · subst h0
        simp only [setKey, if_pos rfl, lookupKey]
        rw [if_neg fun hk => h hk.symm, if_neg fun hk => h hk.symm]
      · simp only [setKey, if_neg h0, lookupKey]
        by_cases h1 : k0 = k'
        · rw [if_pos h1, if_pos h1]
        · rw [if_neg h1, if_neg h1]
          exact ih

theorem lookupKey_eraseKey_self {α : Type} (l : List (String × α)) (k : String) :
    lookupKey (eraseKey l k) k = none := by
  induction l with
  | nil => simp [eraseKey, lookupKey]
  | cons hd tl ih =>
      obtain ⟨k0, v0⟩ := hd
      by_cases h0 : k0 = k
      · simp [eraseKey, h0, ih]
      · simp [eraseKey, lookupKey, h0, ih]

/-- Configuration values (`inputs.Config = map[string]any`).  The handler and
factory code only ever read configuration values through a `.(string)` type
assertion, so the model keeps strings exactly and collapses every non-string
JSON value into `nonstr`. -/
inductive CVal where
  | str (s : String)
  | nonstr
  deriving DecidableEq, Repr

/-- Configuration map (`inputs.Config`), as an association list. -/
abbrev Config := List (String × CVal)

/-- Go type assertion `v, _ := x.(string)` on a map read: absent keys and
non-string values both give the empty string. -/
def asString : Option CVal → String
  | some (CVal.str s) => s
  | _ => ""

/-- Go `unicode.IsSpace` restricted to ASCII (the listen strings at issue are
ASCII; the Unicode space classes beyond these bytes do not occur here). -/
def goIsSpace (c : Char) : Bool :=
  c = ' ' || c = '\t' || c = '\n' || c = '\x0b' || c = '\x0c' || c = '\r'

/-- Go `strings.TrimSpace`: drop leading and trailing whitespace. -/
def goTrimSpace (s : String) : String :=
  String.mk (((s.toList.dropWhile goIsSpace).reverse.dropWhile goIsSpace).reverse)

/-- Splits a character list at its last colon: `lastColonSplit cs = some (h, p)`
exactly when `cs = h ++ ':' :: p` with `p` colon-free.  This models
`idx := strings.LastIndex(addr, ":")` with `host = addr[:idx]`,
`port = addr[idx+1:]` from factory.go. -/
def lastColonSplit : List Char → Option (List Char × List Char)
  | [] => none
  | c :: rest =>
      match lastColonSplit rest with
      | some (h, p) => some (c :: h, p)
      | none => if c = ':' then some ([], rest) else none

theorem lastColonSplit_cons (c : Char) (rest : List Char) :
    lastColonSplit (c :: rest) =
      match lastColonSplit rest with
      | some (h, p) => some (c :: h, p)
      | none => if c = ':' then some ([], rest) else none := rfl

theorem lastColonSplit_eq_none_iff (cs : List Char) :
    lastColonSplit cs = none ↔ ':' ∉ cs := by
  induction cs with
  | nil => simp [lastColonSplit]
  | cons c rest ih =>
      rw [lastColonSplit_cons]
      cases hrec : lastColonSplit rest with
      | some hp =>
          simp only [reduceCtorEq, false_iff, not_not, List.mem_cons]
          right
          by_contra hnot
          rw [ih.mpr hnot] at hrec
          exact Option.noConfusion hrec
      | none =>
          by_cases hc : c = ':'
          · simp [hc]
          · simp only [if_neg hc, List.mem_cons, true_iff]
            rintro (h | h)
            · exact hc h.symm
            · exact (ih.mp hrec) h

theorem lastColonSplit_sound (cs : List Char) : ∀ h p : List Char,
    lastColonSplit cs = some (h, p) → cs = h ++ ':' :: p ∧ ':' ∉ p := by
  induction cs with
  | nil => intro h p hs; exact Option.noConfusion hs
  | cons c rest ih =>
      intro h p hs
      rw [lastColonSplit_cons] at hs
      cases hrec : lastColonSplit rest with
      | some hp0 =>
          obtain ⟨h0, p0⟩ := hp0
          rw [hrec] at hs
          simp only [Option.some.injEq, Prod.mk.injEq] at hs
          obtain ⟨hh, hp'⟩ := hs
          obtain ⟨hrest, hni⟩ := ih h0 p0 hrec
          subst hh; subst hp'; subst hrest
          exact ⟨rfl, hni⟩
      | none =>
          rw [hrec] at hs
          by_cases hc : c = ':'
          · rw [if_pos hc] at hs
            simp only [Option.some.injEq, Prod.mk.injEq] at hs
            obtain ⟨hh, hp'⟩ := hs
            subst hh; subst hp'
            exact ⟨by simp [hc], (lastColonSplit_eq_none_iff rest).mp hrec⟩
          · rw [if_neg hc] at hs
            exact Option.noConfusion hs

theorem lastColonSplit_complete (h p : List Char) (hni : ':' ∉ p) :
    lastColonSplit (h ++ ':' :: p) = some (h, p) := by
  induction h with
  | nil =>
      rw [List.nil_append, lastColonSplit_cons,
        (lastColonSplit_eq_none_iff p).mpr hni]
      simp
  | cons a h' ih =>
      rw [List.cons_append, lastColonSplit_cons, ih]

/-- Go `unicode.IsDigit` on the port characters.  The listen strings handled by
this system are ASCII, where `unicode.IsDigit` coincides with `Char.isDigit`
(non-ASCII decimal digits are outside the modelled input space). -/
def goIsDigit (c : Char) : Bool := c.isDigit

/-- httpinput/factory.go `validListenAddr`: split at the last colon
(`strings.LastIndex`), then require the port to be 1 to 5 characters, all
digits.  The listen strings of interest are ASCII, where Go's byte length
equals the character count used here. -/
def validListenAddr (addr : String) : Bool :=
  match lastColonSplit addr.toList with
  | none => false
  | some (_, port) =>
      if port.length = 0 ∨ port.length > 5 then false
      else port.all goIsDigit

/-- httpinput/factory.go `Factory.ValidateConfig`: read `cfg["listen"]` as a
string, trim whitespace, reject empty, reject malformed `host:port`.
`none` means validation passed; `some msg` is the returned error. -/
def httpValidateConfig (cfg : Config) : Option String :=
  let listen := goTrimSpace (asString (lookupKey cfg "listen"))
  if listen = "" then
    some "listen is required: each input must have its own port (e.g. :9001)"
  else if ¬ validListenAddr listen then
    some "listen must be host:port or :port (e.g. :9001 or 0.0.0.0:9001)"
  else none

/-- Splits a character list on every colon (used only to state the spec's
regex; compare with `lastColonSplit`, which is the code's behaviour). -/
def splitOnColon : List Char → List (List Char)
  | [] => [[]]
  | c :: rest =>
      let r := splitOnColon rest
      if c = ':' then [] :: r
      else
        match r with
        | [] => [[c]]
        | h :: t => (c :: h) :: t

/-- Modelled from the spec: the claimed listen-string shape
`^([^:]*):\d{1,5}$` — a host part with no colon, one colon, then one to five
digits.  A string matches exactly when splitting on `:` yields two parts and
the second is 1–5 digits. -/
def specListenShape (s : String) : Bool :=
  match splitOnColon s.toList with
  | [_, port] => 1 ≤ port.length && port.length ≤ 5 && port.all goIsDigit
  | _ => false

theorem validListenAddr_iff (addr : String) :
    validListenAddr addr = true ↔
      ∃ host port : List Char, addr.toList = host ++ ':' :: port ∧
        1 ≤ port.length ∧ port.length ≤ 5 ∧ port.all goIsDigit = true := by
  constructor
  · intro hv
    unfold validListenAddr at hv
    cases hs : lastColonSplit addr.toList with
    | none => rw [hs] at hv; exact Bool.noConfusion hv
    | some hp =>
        obtain ⟨h0, p0⟩ := hp
        rw [hs] at hv
        have hv' : (if p0.length = 0 ∨ p0.length > 5 then false
            else p0.all goIsDigit) = true := hv
        by_cases hlen : p0.length = 0 ∨ p0.length > 5
        · rw [if_pos hlen] at hv'; exact Bool.noConfusion hv'
        · rw [if_neg hlen] at hv'
          push_neg at hlen
          obtain ⟨hdec, -⟩ := lastColonSplit_sound addr.toList h0 p0 hs
          exact ⟨h0, p0, hdec, Nat.one_le_iff_ne_zero.mpr hlen.1, hlen.2, hv'⟩
  · rintro ⟨host, port, hdec, h1, h5, hall⟩
    have hni : ':' ∉ port := by
      intro hm
      have := List.all_eq_true.mp hall _ hm
      simp [goIsDigit] at this
    unfold validListenAddr
    rw [hdec, lastColonSplit_complete host port hni]
    show (if port.length = 0 ∨ port.length > 5 then false
        else port.all goIsDigit) = true
    rw [if_neg (by omega)]
    exact hall

/-- Go `strings.Trim(s, cutset)` for a one-character cutset. -/
def trimCharBoth (cut : Char) (s : String) : String :=
  String.mk (((s.toList.dropWhile (· = cut)).reverse.dropWhile (· = cut)).reverse)

/-- First eight characters of a UUID string (`uuid.New().String()[:8]`;
UUID strings are ASCII, so Go's byte slice is the character prefix). -/
def firstEight (s : String) : String := String.mk (s.toList.take 8)

/-- httpinput/input.go `Input`: the runtime handle of a running http input
(its served path and listen address; the buffer is threaded separately). -/
structure RunInput where
  path : String
  listenAddr : String
  deriving DecidableEq, Repr

/-- httpinput/input.go `NewInput`: normalize `base_path` to one leading slash
and no trailing slash, defaulting to `/ingest`; with a listen address the
served path is the base path itself, otherwise base path plus description. -/
def newInput (basePath description listenAddr : String) : RunInput :=
  let basePath := "/" ++ trimCharBoth '/' (goTrimSpace basePath)
  let basePath := if basePath = "/" then "/ingest" else basePath
  let path :=
    if listenAddr ≠ "" then basePath
    else
      let desc := trimCharBoth '/' (goTrimSpace description)
      let desc := if desc = "" then "raw" else desc
      basePath ++ "/" ++ desc
  { path := path, listenAddr := listenAddr }

/-- httpinput/input.go `Input.Start`.  With an empty listen address it is a
no-op returning nil.  Otherwise `ListenAndServe` runs inside `go func() {...}`:
the bind outcome (`bindFails`) is consumed only by the background goroutine,
which logs the error; the value returned to the caller is nil on every path.
Result: (returned error, log lines emitted by the background task). -/
def runStart (i : RunInput) (bindFails : Bool) : Option String × List String :=
  if i.listenAddr = "" then (none, [])
  else
    (none,
      if bindFails then ["[ingest] listener " ++ i.listenAddr ++ ": bind failed"]
      else [])

/-- httpinput/factory.go `Factory.Create`: require a non-blank listen string,
default `base_path` to `/ingest`, and build the runtime input. -/
def httpFactoryCreate (cfg : Config) : Except String RunInput :=
  let listen := asString (lookupKey cfg "listen")
  if goTrimSpace listen = "" then Except.error "listen is required for http input"
  else
    let basePath := asString (lookupKey cfg "base_path")
    let basePath := if basePath = "" then "/ingest" else basePath
    Except.ok (newInput basePath "" listen)

/-- inputs/registry.go `Registry.ValidateConfig` over the process registry,
which holds exactly the http factory (httpinput registers itself at startup;
no other factory exists in the repository).  Unknown types pass silently. -/
def registryValidateConfig (typeName : String) (cfg : Config) : Option String :=
  if typeName = "http" then httpValidateConfig cfg else none

/-- inputs/registry.go `Registry.Create` over the same registry: unknown types
fail, `http` delegates to the factory. -/
def registryCreate (typeName : String) (cfg : Config) : Except String RunInput :=
  if typeName = "http" then httpFactoryCreate cfg
  else Except.error ("unknown input type: " ++ typeName)

/-- model.Input, the persisted row.  The schema's `global`, `node_id` and
`creator_user_id` columns are carried opaquely by the code and never read by
the modelled logic, so they are omitted. -/
structure Input where
  id : String
  type_ : String
  title : String
  configuration : Config
  desiredState : String
  createdAt : Nat
  deriving DecidableEq, Repr

/-- handler/inputs.go `InstanceRecord`. -/
structure InstanceRec where
  input : Input
  run : RunInput
  deriving DecidableEq, Repr

/-- The controller state: the relational store (list of rows, insertion order)
and the in-memory instance map guarded by `InstancesMu`. -/
structure SysState where
  store : List Input
  instances : List (String × InstanceRec)
  deriving DecidableEq, Repr

/-- Events emitted by a handler execution, in program order, used to state
where the instance-map mutex is held.  `lockAcquire`/`lockRelease` are
`InstancesMu.Lock()`/`Unlock()`; the store events are the repository calls;
`mapInsert`/`mapDelete` are the mutations of `h.Instances`. -/
inductive Ev where
  | storeList
  | storeGet
  | storeCreate
  | storeUpdate
  | storeDelete
  | lockAcquire
  | lockRelease
  | mapInsert
  | mapDelete
  | runStart
  | runStop
  deriving DecidableEq, Repr

/-- handler/inputs.go `createInputRequest` after JSON binding: the top-level
convenience fields plus the parsed `config` object (empty when absent). -/
structure CreateReq where
  type_ : String
  title : String
  description : String
  listen : String
  config : Config
  deriving DecidableEq, Repr

/-- CreateInput lines 121–133: start from the parsed `config` object, copy a
non-empty `description` in, default `base_path` when absent, then copy a
non-empty top-level `listen` in (in that order). -/
def buildCreateConfig (req : CreateReq) : Config :=
  let cfg := req.config
  let cfg :=
    if req.description ≠ "" then setKey cfg "description" (CVal.str req.description)
    else cfg
  let cfg :=
    if (lookupKey cfg "base_path").isNone then setKey cfg "base_path" (CVal.str "/ingest")
    else cfg
  if req.listen ≠ "" then setKey cfg "listen" (CVal.str req.listen) else cfg

/-- The conflict scan of CreateInput lines 154–165 / UpdateInput lines 281–293:
some row (other than `excludeId`, for update) has type http and a non-empty
listen string equal to `listen`. -/
def listenConflict (store : List Input) (listen : String) (excludeId : Option String) :
    Bool :=
  store.any fun ex =>
    (match excludeId with
     | some i => !(ex.id == i)
     | none => true) &&
    ex.type_ == "http" &&
    (let exl := asString (lookupKey ex.configuration "listen")
     !(exl == "") && exl == listen)

/-- Outcome of a handler execution: HTTP status, resulting state, event trace. -/
structure OpOut where
  status : Nat
  state : SysState
  trace : List Ev
  deriving DecidableEq, Repr

/-- handler/inputs.go `CreateInput` (lines 109–200), sequentially.  Explicit
parameters replace the environment: `titleUuid` is the `uuid.New()` consumed
by the title default, `rowUuid` the id assigned by `InputRepository.Create`,
`now` the row timestamp, `bindFails` the socket-bind outcome.  Store calls
cannot fail in the model (database errors are environmental).  The Go nil
check `cfg["listen"] == nil` is `lookupKey cfg "listen" = none`; an explicit
JSON null also validates to the same 400 one line later, so the status is
unaffected by collapsing null into `CVal.nonstr`. -/
def createInput (req : CreateReq) (st : SysState) (titleUuid rowUuid : String)
    (now : Nat) (bindFails : Bool) : OpOut :=
  if req.type_ = "" then ⟨400, st, []⟩
  else
    let title := if req.title = "" then "input-" ++ firstEight titleUuid else req.title
    let cfg := buildCreateConfig req
    if req.type_ = "http" ∧ lookupKey cfg "listen" = none then ⟨400, st, []⟩
    else
      match registryValidateConfig req.type_ cfg with
      | some _ => ⟨400, st, []⟩
      | none =>
          if req.type_ = "http" ∧
              listenConflict st.store (asString (lookupKey cfg "listen")) none = true then
            ⟨409, st, [Ev.storeList]⟩
          else
            let preTrace := if req.type_ = "http" then [Ev.storeList] else []
            let row : Input := ⟨rowUuid, req.type_, title, cfg, "RUNNING", now⟩
            let store' := st.store ++ [row]
            match registryCreate req.type_ cfg with
            | Except.error _ => ⟨400, ⟨store', st.instances⟩, preTrace ++ [Ev.storeCreate]⟩
            | Except.ok run =>
                match runStart run bindFails with
                | (some _, _) =>
                    ⟨500, ⟨store', st.instances⟩, preTrace ++ [Ev.storeCreate, Ev.runStart]⟩
                | (none, _) =>
                    ⟨201, ⟨store', setKey st.instances rowUuid ⟨row, run⟩⟩,
                      preTrace ++ [Ev.storeCreate, Ev.runStart,
                        Ev.lockAcquire, Ev.mapInsert, Ev.lockRelease]⟩

/-- UpdateInput lines 246–264: start from the row's stored configuration,
overlay every top-level key of the request's `config` object
(`json.Unmarshal` into the already-populated map), then apply the same
description / base_path / listen steps as `buildCreateConfig`. -/
def buildUpdateConfig (req : CreateReq) (in0 : Input) : Config :=
  let cfg := in0.configuration
  let cfg := req.config.foldl (fun acc kv => setKey acc kv.1 kv.2) cfg
  let cfg :=
    if req.description ≠ "" then setKey cfg "description" (CVal.str req.description)
    else cfg
  let cfg :=
    if (lookupKey cfg "base_path").isNone then setKey cfg "base_path" (CVal.str "/ingest")
    else cfg
  if req.listen ≠ "" then setKey cfg "listen" (CVal.str req.listen) else cfg

/-- handler/inputs.go `UpdateInput` (lines 219–321), sequentially.  The
request id is already parsed.  Note the order taken from the source: the
running instance is stopped and removed from the map (under the lock) before
configuration merge, validation, the conflict scan and the store update. -/
def updateInput (id : String) (req : CreateReq) (st : SysState) (bindFails : Bool) :
    OpOut :=
  match st.store.find? (fun r => r.id == id) with
  | none => ⟨404, st, [Ev.storeGet]⟩
  | some in0 =>
      let hadInst := (lookupKey st.instances id).isSome
      let instances₁ := eraseKey st.instances id
      let stopTrace :=
        if hadInst then [Ev.lockAcquire, Ev.runStop, Ev.mapDelete, Ev.lockRelease]
        else [Ev.lockAcquire, Ev.lockRelease]
      let pre := Ev.storeGet :: stopTrace
      let title := if req.title ≠ "" then req.title else in0.title
      let cfg := buildUpdateConfig req in0
      match registryValidateConfig in0.type_ cfg with
      | some _ => ⟨400, ⟨st.store, instances₁⟩, pre⟩
      | none =>
          let listen := asString (lookupKey cfg "listen")
          if in0.type_ = "http" ∧ listen ≠ "" ∧
              listenConflict st.store listen (some id) = true then
            ⟨409, ⟨st.store, instances₁⟩, pre ++ [Ev.storeList]⟩
          else
            let confTrace :=
              if in0.type_ = "http" ∧ listen ≠ "" then [Ev.storeList] else []
            let row : Input := ⟨in0.id, in0.type_, title, cfg, "RUNNING", in0.createdAt⟩
            let store' := st.store.map fun r => if r.id == id then row else r
            match registryCreate in0.type_ cfg with
            | Except.error _ =>
                ⟨400, ⟨store', instances₁⟩, pre ++ confTrace ++ [Ev.storeUpdate]⟩
            | Except.ok run =>
                match runStart run bindFails with
                | (some _, _) =>
                    ⟨500, ⟨store', instances₁⟩,
                      pre ++ confTrace ++ [Ev.storeUpdate, Ev.runStart]⟩
                | (none, _) =>
                    ⟨200, ⟨store', setKey instances₁ id ⟨row, run⟩⟩,
                      pre ++ confTrace ++ [Ev.storeUpdate, Ev.runStart,
                        Ev.lockAcquire, Ev.mapInsert, Ev.lockRelease]⟩

/-- handler/inputs.go `DeleteInput` (lines 324–348): look up, stop and remove
the instance under the lock if present, delete the row. -/
def deleteInput (id : String) (st : SysState) : OpOut :=
  match st.store.find? (fun r => r.id == id) with
  | none => ⟨404, st, [Ev.storeGet]⟩
  | some _ =>
      let hadInst := (lookupKey st.instances id).isSome
      let stopTrace :=
        if hadInst then [Ev.lockAcquire, Ev.runStop, Ev.mapDelete, Ev.lockRelease]
        else [Ev.lockAcquire, Ev.lockRelease]
      ⟨200, ⟨st.store.filter (fun r => !(r.id == id)), eraseKey st.instances id⟩,
        Ev.storeGet :: stopTrace ++ [Ev.storeDelete]⟩

/-- Two http rows share a listen string when both configurations carry the
same string under `listen`. -/
def sharesListen (a b : Input) : Bool :=
  match lookupKey a.configuration "listen", lookupKey b.configuration "listen" with
  | some (CVal.str la), some (CVal.str lb) => la == lb
  | _, _ => false

/-- The store invariant of the spec: no two http rows carry the same listen
string. -/
def httpUniqueB : List Input → Bool
  | [] => true
  | a :: rest =>
      (rest.all fun b =>
        !(a.type_ == "http" && b.type_ == "http" && sharesListen a b)) &&
      httpUniqueB rest

/-- Scans a trace and checks that every instance-map mutation happens while
the mutex is held (`held` is the lock state entering the trace). -/
def mapMutationsLocked : List Ev → Bool → Bool
  | [], _ => true
  | Ev.lockAcquire :: r, _ => mapMutationsLocked r true
  | Ev.lockRelease :: r, _ => mapMutationsLocked r false
  | Ev.mapInsert :: r, held => held && mapMutationsLocked r held
  | Ev.mapDelete :: r, held => held && mapMutationsLocked r held
  | _ :: r, held => mapMutationsLocked r held

/-- Scans a trace and checks that every store read/write of the decision+write
sequence (`List`, `Create`, `Update`) happens while the mutex is held. -/
def storeOpsLocked : List Ev → Bool → Bool
  | [], _ => true
  | Ev.lockAcquire :: r, _ => storeOpsLocked r true
  | Ev.lockRelease :: r, _ => storeOpsLocked r false
  | Ev.storeList :: r, held => held && storeOpsLocked r held
  | Ev.storeCreate :: r, held => held && storeOpsLocked r held
  | Ev.storeUpdate :: r, held => held && storeOpsLocked r held
  | _ :: r, held => storeOpsLocked r held

/-- Primary-key uniqueness of the `inputs` table (`id UUID pk`), as a store
hypothesis. -/
def idsUniqueB : List Input → Bool
  | [] => true
  | a :: rest => (rest.all fun b => !(a.id == b.id)) && idsUniqueB rest

/-- A pair of rows that does not violate the http-listen invariant. -/
def okPair (a b : Input) : Prop :=
  ¬(a.type_ = "http" ∧ b.type_ = "http" ∧ sharesListen a b = true)

theorem httpUniqueB_iff (l : List Input) :
    httpUniqueB l = true ↔ l.Pairwise okPair := by
  induction l with
  | nil => simp [httpUniqueB]
  | cons a rest ih =>
      simp only [httpUniqueB, Bool.and_eq_true, List.all_eq_true, List.pairwise_cons, ih,
        okPair, Bool.not_eq_true', Bool.and_eq_false_iff, beq_eq_false_iff_ne, ne_eq,
        not_and]
      constructor
      · rintro ⟨hall, hrest⟩
        refine ⟨fun b hb hahttp hbhttp hsh => ?_, hrest⟩
        rcases hall b hb with h | h
        · rcases h with h | h
          · exact h hahttp
          · exact h hbhttp
        · rw [h] at hsh; exact Bool.noConfusion hsh
      · rintro ⟨hall, hrest⟩
        refine ⟨fun b hb => ?_, hrest⟩
        by_cases ha : a.type_ = "http"
        · by_cases hb' : b.type_ = "http"
          · right
            by_cases hs : sharesListen a b = true
            · exact absurd hs (hall b hb ha hb')
            · exact Bool.eq_false_iff.mpr hs
          · exact Or.inl (Or.inr hb')
        · exact Or.inl (Or.inl ha)

theorem idsUniqueB_iff (l : List Input) :
    idsUniqueB l = true ↔ l.Pairwise (fun a b => a.id ≠ b.id) := by
  induction l with
  | nil => simp [idsUniqueB]
  | cons a rest ih =>
      simp [idsUniqueB, List.all_eq_true, List.pairwise_cons, ih]

theorem sharesListen_true_iff (a b : Input) :
    sharesListen a b = true ↔
      ∃ la lb, lookupKey a.configuration "listen" = some (CVal.str la) ∧
        lookupKey b.configuration "listen" = some (CVal.str lb) ∧ la = lb := by
  unfold sharesListen
  cases ha : lookupKey a.configuration "listen" with
  | none => simp
  | some v =>
      cases v with
      | nonstr => simp
      | str la =>
          cases hb : lookupKey b.configuration "listen" with
          | none => simp
          | some w =>
              cases w with
              | nonstr => simp
              | str lb => simp [beq_iff_eq]

theorem listenConflict_false_elim (store : List Input) (l : String)
    (excl : Option String) (h : listenConflict store l excl = false)
    (ex : Input) (hmem : ex ∈ store)
    (hskip : ∀ i, excl = some i → ex.id ≠ i)
    (hhttp : ex.type_ = "http") :
    asString (lookupKey ex.configuration "listen") = "" ∨
      asString (lookupKey ex.configuration "listen") ≠ l := by
  unfold listenConflict at h
  rw [List.any_eq_false] at h
  have hex := h ex hmem
  by_cases hemp : asString (lookupKey ex.configuration "listen") = ""
  · exact Or.inl hemp
  · refine Or.inr fun heq => ?_
    cases excl with
    | none =>
        simp [hhttp, hemp, heq] at hex
        exact hemp (heq.trans hex)
    | some i =>
        have hid : ex.id ≠ i := hskip i rfl
        simp [hhttp, hemp, heq, hid] at hex
        exact hemp (heq.trans hex)

theorem httpValidate_none_listen (cfg : Config)
    (h : httpValidateConfig cfg = none) :
    ∃ l, lookupKey cfg "listen" = some (CVal.str l) ∧ l ≠ "" := by
  unfold httpValidateConfig at h
  by_cases h0 : goTrimSpace (asString (lookupKey cfg "listen")) = ""
  · rw [if_pos h0] at h; exact Option.noConfusion h
  · cases hl : lookupKey cfg "listen" with
    | none => rw [hl] at h0; exact absurd rfl h0
    | some v =>
        cases v with
        | nonstr => rw [hl] at h0; exact absurd rfl h0
        | str l =>
            refine ⟨l, rfl, fun hemp => ?_⟩
            rw [hl, hemp] at h0
            exact h0 rfl

theorem httpUniqueB_append_nonhttp (store : List Input) (row : Input)
    (h : httpUniqueB store = true) (hr : row.type_ ≠ "http") :
    httpUniqueB (store ++ [row]) = true := by
  rw [httpUniqueB_iff] at h ⊢
  rw [List.pairwise_append]
  refine ⟨h, List.pairwise_singleton _ _, ?_⟩
  intro a _ b hb
  rw [List.mem_singleton] at hb
  subst hb
  rintro ⟨_, hbh, _⟩
  exact hr hbh

theorem httpUniqueB_append_http (store : List Input) (row : Input) (l : String)
    (h : httpUniqueB store = true)
    (hlook : lookupKey row.configuration "listen" = some (CVal.str l))
    (hl : l ≠ "")
    (hconf : listenConflict store l none = false) :
    httpUniqueB (store ++ [row]) = true := by
  rw [httpUniqueB_iff] at h ⊢
  rw [List.pairwise_append]
  refine ⟨h, List.pairwise_singleton _ _, ?_⟩
  intro a ha b hb
  rw [List.mem_singleton] at hb
  rintro ⟨hah, _, hsh⟩
  rw [hb] at hsh
  obtain ⟨la, lb, hla, hlb, hle⟩ := (sharesListen_true_iff a row).mp hsh
  rw [hlook] at hlb
  simp only [Option.some.injEq, CVal.str.injEq] at hlb
  have hlal : la = l := hle.trans hlb.symm
  have helim := listenConflict_false_elim store l none hconf a ha
    (fun _ hj => Option.noConfusion hj) hah
  rw [hla] at helim
  simp only [asString] at helim
  rcases helim with hemp | hne
  · exact hl (hlal.symm.trans hemp)
  · exact hne hlal

theorem httpUniqueB_update (store : List Input) (i : String) (row : Input)
    (h : httpUniqueB store = true)
    (hids : idsUniqueB store = true)
    (hcase : row.type_ ≠ "http" ∨
      ∃ l, lookupKey row.configuration "listen" = some (CVal.str l) ∧ l ≠ "" ∧
        listenConflict store l (some i) = false) :
    httpUniqueB (store.map fun r => if r.id == i then row else r) = true := by
  rw [httpUniqueB_iff] at h ⊢
  rw [idsUniqueB_iff] at hids
  rw [List.pairwise_map]
  refine (h.and hids).imp_of_mem ?_
  intro a b ha hb hab
  obtain ⟨hok, hne⟩ := hab
  by_cases hai : a.id = i
  · by_cases hbi : b.id = i
    · exact absurd (hai.trans hbi.symm) hne
    · rw [if_pos (by simp [hai]), if_neg (by simp [hbi])]
      rintro ⟨hrh, hbh, hsh⟩
      rcases hcase with hnh | ⟨l, hlook, hl, hconf⟩
      · exact hnh hrh
      · obtain ⟨la, lb, hla, hlb, hle⟩ := (sharesListen_true_iff row b).mp hsh
        rw [hlook] at hla
        simp only [Option.some.injEq, CVal.str.injEq] at hla
        have hlbl : lb = l := hle.symm.trans hla.symm
        have helim := listenConflict_false_elim store l (some i) hconf b hb
          (fun j hj => by injection hj with hj; exact hj ▸ hbi) hbh
        rw [hlb] at helim
        simp only [asString] at helim
        rcases helim with hemp | hne2
        · exact hl (hlbl.symm.trans hemp)
        · exact hne2 hlbl
  · by_cases hbi : b.id = i
    · rw [if_neg (by simp [hai]), if_pos (by simp [hbi])]
      rintro ⟨hah, hrh, hsh⟩
      rcases hcase with hnh | ⟨l, hlook, hl, hconf⟩
      · exact hnh hrh
      · obtain ⟨la, lb, hla, hlb, hle⟩ := (sharesListen_true_iff a row).mp hsh
        rw [hlook] at hlb
        simp only [Option.some.injEq, CVal.str.injEq] at hlb
        have hlal : la = l := hle.trans hlb.symm
        have helim := listenConflict_false_elim store l (some i) hconf a ha
          (fun j hj => by injection hj with hj; exact hj ▸ hai) hah
        rw [hla] at helim
        simp only [asString] at helim
        rcases helim with hemp | hne2
        · exact hl (hlal.symm.trans hemp)
        · exact hne2 hlal
    · rw [if_neg (by simp [hai]), if_neg (by simp [hbi])]
      exact hok

theorem httpUniqueB_filter (store : List Input) (p : Input → Bool)
    (h : httpUniqueB store = true) : httpUniqueB (store.filter p) = true := by
  rw [httpUniqueB_iff] at h ⊢
  exact List.Pairwise.sublist (List.filter_sublist _) h

theorem createInput_conflict_409 (req : CreateReq) (st : SysState)
    (tU rU : String) (now : Nat) (bf : Bool)
    (hhttp : req.type_ = "http")
    (hval : httpValidateConfig (buildCreateConfig req) = none)
    (hconf : listenConflict st.store
      (asString (lookupKey (buildCreateConfig req) "listen")) none = true) :
    (createInput req st tU rU now bf).status = 409 ∧
      (createInput req st tU rU now bf).state = st := by
  obtain ⟨l, hlook, hl⟩ := httpValidate_none_listen _ hval
  have hreg : registryValidateConfig req.type_ (buildCreateConfig req) = none := by
    rw [hhttp]; simpa [registryValidateConfig] using hval
  simp only [createInput, hreg]
  rw [if_neg (show ¬req.type_ = "" by rw [hhttp]; simp),
    if_neg (show ¬(req.type_ = "http" ∧ lookupKey (buildCreateConfig req) "listen" = none)
      from fun hpair => by rw [hlook] at hpair; exact Option.noConfusion hpair.2),
    if_pos ⟨hhttp, hconf⟩]
  exact ⟨rfl, rfl⟩

theorem createInput_preserves_unique (req : CreateReq) (st : SysState)
    (tU rU : String) (now : Nat) (bf : Bool)
    (h : httpUniqueB st.store = true) :
    httpUniqueB (createInput req st tU rU now bf).state.store = true := by
  simp only [createInput]
  split
  · exact h
  next hty =>
    split
    · exact h
    next hnil =>
      split
      · exact h
      next hreg =>
        split
        · exact h
        next hnc =>
          have hrow :
              httpUniqueB (st.store ++
                [⟨rU, req.type_,
                  if req.title = "" then "input-" ++ firstEight tU else req.title,
                  buildCreateConfig req, "RUNNING", now⟩]) = true := by
            by_cases hh : req.type_ = "http"
            · have hv : httpValidateConfig (buildCreateConfig req) = none := by
                rw [hh] at hreg
                simpa [registryValidateConfig] using hreg
              obtain ⟨l, hlook, hl⟩ := httpValidate_none_listen _ hv
              have hcf : listenConflict st.store l none = false := by
                rw [Bool.eq_false_iff]
                intro hc
                exact hnc ⟨hh, by rw [hlook]; simpa [asString] using hc⟩
              exact httpUniqueB_append_http st.store _ l h hlook hl hcf
            · exact httpUniqueB_append_nonhttp st.store _ h hh
          split
          · exact hrow
          next run hok =>
            split
            · exact hrow
            · exact hrow

theorem updateInput_preserves_unique (id : String) (req : CreateReq)
    (st : SysState) (bf : Bool)
    (h : httpUniqueB st.store = true) (hids : idsUniqueB st.store = true) :
    httpUniqueB (updateInput id req st bf).state.store = true := by
  simp only [updateInput]
  split
  · exact h
  next in0 hfind =>
    split
    · exact h
    next hreg =>
      split
      · exact h
      next hnc =>
        have hrow : httpUniqueB (st.store.map fun r =>
            if r.id == id then
              (⟨in0.id, in0.type_,
                if req.title ≠ "" then req.title else in0.title,
                buildUpdateConfig req in0, "RUNNING", in0.createdAt⟩ : Input)
            else r) = true := by
          by_cases hh : in0.type_ = "http"
          · have hv : httpValidateConfig (buildUpdateConfig req in0) = none := by
              rw [hh] at hreg
              simpa [registryValidateConfig] using hreg
            obtain ⟨l, hlook, hl⟩ := httpValidate_none_listen _ hv
            have hcf : listenConflict st.store l (some id) = false := by
              rw [Bool.eq_false_iff]
              intro hc
              refine hnc ⟨hh, ?_, ?_⟩
              · rw [hlook]; simpa [asString] using hl
              · rw [hlook]; simpa [asString] using hc
            exact httpUniqueB_update st.store id _ h hids (Or.inr ⟨l, hlook, hl, hcf⟩)
          · exact httpUniqueB_update st.store id _ h hids (Or.inl hh)
        split
        · exact hrow
        next run hok =>
          split
          · exact hrow
          · exact hrow

theorem deleteInput_preserves_unique (id : String) (st : SysState)
    (h : httpUniqueB st.store = true) :
    httpUniqueB (deleteInput id st).state.store = true := by
  simp only [deleteInput]
  split
  · exact h
  · exact httpUniqueB_filter st.store _ h

theorem runStart_fst_none (i : RunInput) (bf : Bool) :
    (runStart i bf).fst = none := by
  unfold runStart
  split <;> rfl

/-- Scans a trace and checks that every store operation of the
decision+write sequence happens while the mutex is NOT held. -/
def storeOpsUnlocked : List Ev → Bool → Bool
  | [], _ => true
  | Ev.lockAcquire :: r, _ => storeOpsUnlocked r true
  | Ev.lockRelease :: r, _ => storeOpsUnlocked r false
  | Ev.storeList :: r, held => !held && storeOpsUnlocked r held
  | Ev.storeCreate :: r, held => !held && storeOpsUnlocked r held
  | Ev.storeUpdate :: r, held => !held && storeOpsUnlocked r held
  | _ :: r, held => storeOpsUnlocked r held

theorem createInput_map_mutations_locked (req : CreateReq) (st : SysState)
    (tU rU : String) (now : Nat) (bf : Bool) :
    mapMutationsLocked (createInput req st tU rU now bf).trace false = true := by
  simp only [createInput]
  repeat' split
  all_goals rfl

theorem updateInput_map_mutations_locked (id : String) (req : CreateReq)
    (st : SysState) (bf : Bool) :
    mapMutationsLocked (updateInput id req st bf).trace false = true := by
  simp only [updateInput]
  repeat' split
  all_goals rfl

theorem deleteInput_map_mutations_locked (id : String) (st : SysState) :
    mapMutationsLocked (deleteInput id st).trace false = true := by
  simp only [deleteInput]
  repeat' split
  all_goals rfl

theorem createInput_store_ops_unlocked (req : CreateReq) (st : SysState)
    (tU rU : String) (now : Nat) (bf : Bool) :
    storeOpsUnlocked (createInput req st tU rU now bf).trace false = true := by
  simp only [createInput]
  repeat' split
  all_goals rfl

/-- C1: an http create whose effective listen string is already used by an
http row in the store gets 409 and leaves the state untouched, and the
invariant "no two http rows share a listen string" is preserved by Create,
by Update (which excludes the row being updated from the comparison) and by
Delete.  Update additionally assumes primary-key uniqueness of row ids
(`inputs.id` is the table's primary key). -/
theorem c1_http_listen_unique_invariant :
    (∀ (req : CreateReq) (st : SysState) (tU rU : String) (now : Nat) (bf : Bool),
        req.type_ = "http" →
        httpValidateConfig (buildCreateConfig req) = none →
        listenConflict st.store
          (asString (lookupKey (buildCreateConfig req) "listen")) none = true →
        (createInput req st tU rU now bf).status = 409 ∧
          (createInput req st tU rU now bf).state = st) ∧
    (∀ (req : CreateReq) (st : SysState) (tU rU : String) (now : Nat) (bf : Bool),
        httpUniqueB st.store = true →
        httpUniqueB (createInput req st tU rU now bf).state.store = true) ∧
    (∀ (id : String) (req : CreateReq) (st : SysState) (bf : Bool),
        httpUniqueB st.store = true → idsUniqueB st.store = true →
        httpUniqueB (updateInput id req st bf).state.store = true) ∧
    (∀ (id : String) (st : SysState),
        httpUniqueB st.store = true →
        httpUniqueB (deleteInput id st).state.store = true) :=
  ⟨createInput_conflict_409, createInput_preserves_unique,
    updateInput_preserves_unique, deleteInput_preserves_unique⟩

/-- C1 witness: the duplicate-listen create on a concrete one-row store gets
409 without touching the store, and concrete create/update/delete runs keep
the invariant. -/
theorem c1_http_listen_unique_invariant_witness :
    (createInput ⟨"http", "t2", "", ":9001", []⟩
        ⟨[⟨"id1", "http", "t1", [("listen", CVal.str ":9001")], "RUNNING", 0⟩], []⟩
        "u1" "u2" 3 false).status = 409 ∧
    (createInput ⟨"http", "t2", "", ":9001", []⟩
        ⟨[⟨"id1", "http", "t1", [("listen", CVal.str ":9001")], "RUNNING", 0⟩], []⟩
        "u1" "u2" 3 false).state =
      ⟨[⟨"id1", "http", "t1", [("listen", CVal.str ":9001")], "RUNNING", 0⟩], []⟩ ∧
    httpUniqueB (createInput ⟨"http", "t3", "", ":9002", []⟩
        ⟨[⟨"id1", "http", "t1", [("listen", CVal.str ":9001")], "RUNNING", 0⟩], []⟩
        "u1" "u3" 4 false).state.store = true ∧
    httpUniqueB (updateInput "id1" ⟨"", "", "", ":9005", []⟩
        ⟨[⟨"id1", "http", "t1", [("listen", CVal.str ":9001")], "RUNNING", 0⟩], []⟩
        false).state.store = true ∧
    httpUniqueB (deleteInput "id1"
        ⟨[⟨"id1", "http", "t1", [("listen", CVal.str ":9001")], "RUNNING", 0⟩], []⟩
        ).state.store = true := by
  refine ⟨(c1_http_listen_unique_invariant.1 _ _ _ _ _ _ rfl (by decide) (by decide)).1,
    (c1_http_listen_unique_invariant.1 _ _ _ _ _ _ rfl (by decide) (by decide)).2,
    c1_http_listen_unique_invariant.2.1 _ _ _ _ _ _ (by decide),
    c1_http_listen_unique_invariant.2.2.1 _ _ _ _ (by decide) (by decide),
    c1_http_listen_unique_invariant.2.2.2 _ _ (by decide)⟩

/-- C2 counterexample: the code accepts `a:b:1` (it splits at the LAST colon,
so the host part may itself contain colons), while the spec's regex
`^([^:]*):\d{1,5}$` rejects it; so "accepts iff the regex matches" is false. -/
theorem c2_validate_counterexample :
    httpValidateConfig [("listen", CVal.str "a:b:1")] = none ∧
      specListenShape "a:b:1" = false := by
  constructor
  · rfl
  · rfl

/-- C2 (amended): ValidateConfig accepts a configuration iff its listen value,
after trimming whitespace, is non-empty and has the form `host ++ ":" ++ port`
where `port` is one to five digits — with the split taken at the LAST colon,
so the host part may itself contain colons (`^(.*):\d{1,5}$` rather than
`^([^:]*):\d{1,5}$`). -/
theorem c2_validate_amended (cfg : Config) :
    httpValidateConfig cfg = none ↔
      (goTrimSpace (asString (lookupKey cfg "listen")) ≠ "" ∧
       ∃ host port : List Char,
         (goTrimSpace (asString (lookupKey cfg "listen"))).toList =
           host ++ ':' :: port ∧
         1 ≤ port.length ∧ port.length ≤ 5 ∧ port.all goIsDigit = true) := by
  unfold httpValidateConfig
  by_cases h0 : goTrimSpace (asString (lookupKey cfg "listen")) = ""
  · rw [if_pos h0]
    simp [h0]
  · rw [if_neg h0]
    by_cases h1 : validListenAddr (goTrimSpace (asString (lookupKey cfg "listen"))) = true
    · rw [if_neg (by simp [h1])]
      simp only [true_iff, h0, ne_eq, not_false_eq_true, true_and]
      exact (validListenAddr_iff _).mp h1
    · rw [if_pos (by simpa using h1)]
      simp only [reduceCtorEq, false_iff, not_and, ne_eq]
      intro _ hex
      exact h1 ((validListenAddr_iff _).mpr hex)

/-- C6 counterexample: `Start()` launches `ListenAndServe` inside a goroutine,
so with a listen address that cannot be bound (`bindFails = true`) it still
returns nil, and CreateInput still answers 201, not 500. -/
theorem c6_start_counterexample :
    (runStart ⟨"/ingest", ":9001"⟩ true).fst = none ∧
      (createInput ⟨"http", "t", "", ":9001", []⟩ ⟨[], []⟩ "u1" "u2" 0 true).status
        = 201 := by
  constructor
  · rfl
  · decide

/-- C6 (amended): `Start()` on an http input returns nil unconditionally — the
socket is bound inside a background goroutine whose error is only logged — so
a listen address that cannot be bound produces no error for the caller and
CreateInput never reaches its Internal (500) branch through `Start()`. -/
theorem c6_start_always_nil :
    (∀ (i : RunInput) (bf : Bool), (runStart i bf).fst = none) ∧
    (∀ (req : CreateReq) (st : SysState) (tU rU : String) (now : Nat) (bf : Bool),
        (createInput req st tU rU now bf).status ≠ 500) := by
  refine ⟨runStart_fst_none, ?_⟩
  intro req st tU rU now bf
  simp only [createInput]
  split
  · simp
  split
  · simp
  split
  · simp
  split
  · simp
  split
  · simp
  next run hok =>
    split
    next e snd heq =>
        have hfst := congrArg Prod.fst heq
        rw [runStart_fst_none] at hfst
        exact Option.noConfusion hfst
    · simp

theorem createInput_cases (req : CreateReq) (st : SysState) (tU rU : String)
    (now : Nat) (bf : Bool) :
    (createInput req st tU rU now bf).status ≠ 201 ∨
      ((createInput req st tU rU now bf).status = 201 ∧
        (createInput req st tU rU now bf).state.store = st.store ++
          [⟨rU, req.type_,
            if req.title = "" then "input-" ++ firstEight tU else req.title,
            buildCreateConfig req, "RUNNING", now⟩]) := by
  simp only [createInput]
  repeat' split
  all_goals simp

/-- C7 counterexample: with an omitted title, CreateInput builds the title
from a fresh `uuid.New()` (`aaaaaaaa…` here) while the row id is assigned
afterwards by `InputRepository.Create` from another `uuid.New()`
(`bbbbbbbb…`), so the persisted title is not `input-` plus the first eight
characters of the row's own id. -/
theorem c7_title_counterexample :
    (createInput ⟨"http", "", "", ":9001", []⟩ ⟨[], []⟩
        "aaaaaaaa-0000-0000-0000-000000000000"
        "bbbbbbbb-1111-1111-1111-111111111111" 0 false).status = 201 ∧
    ∃ r ∈ (createInput ⟨"http", "", "", ":9001", []⟩ ⟨[], []⟩
        "aaaaaaaa-0000-0000-0000-000000000000"
        "bbbbbbbb-1111-1111-1111-111111111111" 0 false).state.store,
      r.id = "bbbbbbbb-1111-1111-1111-111111111111" ∧
        r.title ≠ "input-" ++ firstEight r.id := by
  decide

/-- C7 (amended): when the title is omitted on create, the persisted title is
`input-` followed by the first eight characters of a fresh UUID drawn for the
title, a value independent of the id the repository assigns to the row. -/
theorem c7_default_title (req : CreateReq) (st : SysState) (tU rU : String)
    (now : Nat) (bf : Bool) (ht : req.title = "")
    (hs : (createInput req st tU rU now bf).status = 201) :
    ∃ r ∈ (createInput req st tU rU now bf).state.store,
      r.id = rU ∧ r.title = "input-" ++ firstEight tU := by
  rcases createInput_cases req st tU rU now bf with hne | ⟨-, hstore⟩
  · exact absurd hs hne
  · rw [hstore]
    refine ⟨_, List.mem_append_right _ (List.mem_singleton_self _), rfl, ?_⟩
    simp [ht]

/-- C7 witness for the amended theorem: a concrete create with empty title
persists `input-aaaaaaaa` alongside row id `u2`. -/
theorem c7_default_title_witness :
    ∃ r ∈ (createInput ⟨"http", "", "", ":9001", []⟩ ⟨[], []⟩
        "aaaaaaaa-0000" "u2" 0 false).state.store,
      r.id = "u2" ∧ r.title = "input-" ++ firstEight "aaaaaaaa-0000" :=
  c7_default_title _ _ _ _ _ _ rfl (by decide)

/-- C8 counterexample: in a successful create the uniqueness decision
(`List`) and the row write (`Create`) both precede the mutex acquisition, so
the lock does not cover the decision+write sequence; consequently two creates
for the same listen string whose decisions both ran against the initial store
both return 201, and the interleaved writes leave two http rows with listen
`:9001`. -/
theorem c8_lock_counterexample :
    storeOpsLocked (createInput ⟨"http", "t", "", ":9001", []⟩ ⟨[], []⟩
        "u1" "ida" 0 false).trace false = false ∧
    Ev.storeCreate ∈ (createInput ⟨"http", "t", "", ":9001", []⟩ ⟨[], []⟩
        "u1" "ida" 0 false).trace ∧
    (createInput ⟨"http", "t", "", ":9001", []⟩ ⟨[], []⟩
        "u1" "ida" 0 false).status = 201 ∧
    (createInput ⟨"http", "t", "", ":9001", []⟩ ⟨[], []⟩
        "u2" "idb" 1 false).status = 201 ∧
    httpUniqueB
      ((createInput ⟨"http", "t", "", ":9001", []⟩ ⟨[], []⟩
          "u1" "ida" 0 false).state.store ++
        (createInput ⟨"http", "t", "", ":9001", []⟩ ⟨[], []⟩
          "u2" "idb" 1 false).state.store) = false := by
  decide

/-- C8 (amended): every instance-map mutation in Create, Update and Delete
runs while the mutex is held, but in Create the uniqueness decision and the
store write run entirely outside the lock (the mutex is acquired only
afterwards, for the map insert). -/
theorem c8_mutex_discipline :
    (∀ (req : CreateReq) (st : SysState) (tU rU : String) (now : Nat) (bf : Bool),
        mapMutationsLocked (createInput req st tU rU now bf).trace false = true) ∧
    (∀ (id : String) (req : CreateReq) (st : SysState) (bf : Bool),
        mapMutationsLocked (updateInput id req st bf).trace false = true) ∧
    (∀ (id : String) (st : SysState),
        mapMutationsLocked (deleteInput id st).trace false = true) ∧
    (∀ (req : CreateReq) (st : SysState) (tU rU : String) (now : Nat) (bf : Bool),
        storeOpsUnlocked (createInput req st tU rU now bf).trace false = true) :=
  ⟨createInput_map_mutations_locked, updateInput_map_mutations_locked,
    deleteInput_map_mutations_locked, createInput_store_ops_unlocked⟩

/-- C9: the top-level convenience fields of a create request override the
parsed `config` object — a non-empty `description` (resp. `listen`) replaces
the config map's value, an empty one leaves it unchanged, and `base_path`
defaults to `/ingest` exactly when the key is absent from the config map; a
201 create persists this merged configuration. -/
theorem c9_toplevel_overrides (req : CreateReq) (st : SysState) (tU rU : String)
    (now : Nat) (bf : Bool) :
    (lookupKey (buildCreateConfig req) "description" =
      if req.description ≠ "" then some (CVal.str req.description)
      else lookupKey req.config "description") ∧
    (lookupKey (buildCreateConfig req) "listen" =
      if req.listen ≠ "" then some (CVal.str req.listen)
      else lookupKey req.config "listen") ∧
    (lookupKey (buildCreateConfig req) "base_path" =
      if (lookupKey req.config "base_path").isNone then some (CVal.str "/ingest")
      else lookupKey req.config "base_path") ∧
    ((createInput req st tU rU now bf).status = 201 →
      ∃ r ∈ (createInput req st tU rU now bf).state.store,
        r.configuration = buildCreateConfig req) := by
  refine ⟨?_, ?_, ?_, ?_⟩
  · simp only [buildCreateConfig]
    by_cases hd : req.description = "" <;> by_cases hl : req.listen = "" <;>
      simp [hd, hl, lookupKey_setKey_self, lookupKey_setKey_ne] <;>
      split <;>
      simp [lookupKey_setKey_self, lookupKey_setKey_ne]
  · simp only [buildCreateConfig]
    by_cases hd : req.description = "" <;> by_cases hl : req.listen = "" <;>
      simp [hd, hl, lookupKey_setKey_self, lookupKey_setKey_ne] <;>
      split <;>
      simp [lookupKey_setKey_self, lookupKey_setKey_ne, hd]
  · simp only [buildCreateConfig]
    by_cases hd : req.description = "" <;> by_cases hl : req.listen = "" <;>
      simp [hd, hl, lookupKey_setKey_self, lookupKey_setKey_ne] <;>
      split <;>
      simp_all [lookupKey_setKey_self, lookupKey_setKey_ne]
  · intro hs
    rcases createInput_cases req st tU rU now bf with hne | ⟨-, hstore⟩
    · exact absurd hs hne
    · rw [hstore]
      exact ⟨_, List.mem_append_right _ (List.mem_singleton_self _), rfl⟩

/-- C9 witness: a create that carries both a config object with
`description`/`listen` keys and non-empty top-level fields (201-successful)
persists the merged configuration with the top-level values in place. -/
theorem c9_toplevel_overrides_witness :
    ∃ r ∈ (createInput
        ⟨"http", "t", "d2", ":9002",
          [("description", CVal.str "d1"), ("listen", CVal.str ":9001")]⟩
        ⟨[], []⟩ "u1" "u2" 0 false).state.store,
      r.configuration = buildCreateConfig
        ⟨"http", "t", "d2", ":9002",
          [("description", CVal.str "d1"), ("listen", CVal.str ":9001")]⟩ :=
  (c9_toplevel_overrides
    ⟨"http", "t", "d2", ":9002",
      [("description", CVal.str "d1"), ("listen", CVal.str ":9001")]⟩
    ⟨[], []⟩ "u1" "u2" 0 false).2.2.2 (by decide)

/-- C10: UpdateInput stops and removes the running instance (its first five
events are get, lock, stop, map-delete, unlock) before any validation or
persistence; if the request then fails, the error response leaves the
input's row in the store with no instance in the map. -/
theorem c10_update_not_atomic (id : String) (req : CreateReq) (st : SysState)
    (bf : Bool)
    (hinst : (lookupKey st.instances id).isSome = true)
    (hrow : (st.store.find? (fun r => r.id == id)).isSome = true)
    (herr : (updateInput id req st bf).status ≠ 200) :
    (updateInput id req st bf).trace.take 5 =
        [Ev.storeGet, Ev.lockAcquire, Ev.runStop, Ev.mapDelete, Ev.lockRelease] ∧
      lookupKey (updateInput id req st bf).state.instances id = none ∧
      ∃ r ∈ (updateInput id req st bf).state.store, r.id = id := by
  revert herr
  cases hfind : st.store.find? (fun r => r.id == id) with
  | none => rw [hfind] at hrow; exact absurd hrow (by simp)
  | some in0 =>
      have hmem : in0 ∈ st.store := List.mem_of_find?_eq_some hfind
      have hid : in0.id = id := by
        have := List.find?_some hfind
        simpa using this
      simp only [updateInput, hfind, hinst, if_true]
      split
      · intro _
        exact ⟨rfl, lookupKey_eraseKey_self _ _, ⟨in0, hmem, hid⟩⟩
      next hreg =>
        split
        · intro _
          exact ⟨rfl, lookupKey_eraseKey_self _ _, ⟨in0, hmem, hid⟩⟩
        next hnc =>
          split
          · intro _
            refine ⟨rfl, lookupKey_eraseKey_self _ _, ?_⟩
            refine ⟨_, List.mem_map_of_mem _ hmem, ?_⟩
            rw [if_pos (by simp [hid])]
            exact hid
          next run hok =>
            split
            next e snd heq =>
                have hfst := congrArg Prod.fst heq
                rw [runStart_fst_none] at hfst
                exact Option.noConfusion hfst
            · intro h200
              exact absurd rfl h200

/-- C10 witness: updating the running input `id1` to the malformed listen
`xyz` fails with 400; afterwards the instance map has no entry for `id1`
while its row is still in the store. -/
theorem c10_update_not_atomic_witness :
    (updateInput "id1" ⟨"", "", "", "xyz", []⟩
        ⟨[⟨"id1", "http", "t1", [("listen", CVal.str ":9001")], "RUNNING", 0⟩],
         [("id1", ⟨⟨"id1", "http", "t1", [("listen", CVal.str ":9001")], "RUNNING", 0⟩,
            ⟨"/ingest", ":9001"⟩⟩)]⟩ false).trace.take 5 =
        [Ev.storeGet, Ev.lockAcquire, Ev.runStop, Ev.mapDelete, Ev.lockRelease] ∧
      lookupKey (updateInput "id1" ⟨"", "", "", "xyz", []⟩
        ⟨[⟨"id1", "http", "t1", [("listen", CVal.str ":9001")], "RUNNING", 0⟩],
         [("id1", ⟨⟨"id1", "http", "t1", [("listen", CVal.str ":9001")], "RUNNING", 0⟩,
            ⟨"/ingest", ":9001"⟩⟩)]⟩ false).state.instances "id1" = none ∧
      ∃ r ∈ (updateInput "id1" ⟨"", "", "", "xyz", []⟩
        ⟨[⟨"id1", "http", "t1", [("listen", CVal.str ":9001")], "RUNNING", 0⟩],
         [("id1", ⟨⟨"id1", "http", "t1", [("listen", CVal.str ":9001")], "RUNNING", 0⟩,
            ⟨"/ingest", ":9001"⟩⟩)]⟩ false).state.store, r.id = "id1" :=
  c10_update_not_atomic _ _ _ _ (by decide) (by decide) (by decide)

/-- Bytes of a string, one per character (all string literals fed through
this — field names, the truncation marker, JSON punctuation, header values in
the modelled requests — are ASCII, where this matches UTF-8). -/
def strBytes (s : String) : List Nat := s.toList.map Char.toNat

/-- httpinput/input.go `maxBodyInRawLog = 64 * 1024`. -/
def maxBodyInRawLog : Nat := 64 * 1024

/-- httpinput/input.go lines 158–161: Go byte-slices the body string, so the
model works on the byte list: bodies longer than 64 KiB are cut at 64 KiB
with the literal marker appended. -/
def truncateBody (body : List Nat) : List Nat :=
  if body.length > maxBodyInRawLog then
    body.take maxBodyInRawLog ++ strBytes "... [truncated]"
  else body

/-- model.RawRequestData.  `body` is a Go string built from the request
bytes, kept as bytes. -/
structure RawRequestData where
  method : String
  path : String
  query : String
  headers : List (String × String)
  body : List Nat
  deriving DecidableEq, Repr

/-- model.LogEntry. -/
structure LogEntry where
  timestamp : String
  service : String
  level : String
  message : String
  tags : List (String × String)
  projectID : String
  rawRequest : Option RawRequestData
  deriving DecidableEq, Repr

/-- Lowercase hex digit byte, as `encoding/json` emits in `\u00XX` escapes. -/
def hexDigitByte (n : Nat) : Nat := if n < 10 then 48 + n else 87 + n

/-- encoding/json string escaping for one byte: quote and backslash escaped,
newline/carriage-return/tab as two-character escapes, other control bytes and
the HTML-sensitive `<`, `>`, `&` as `\u00XX` (Go's default encoder).  Bodies
are assumed valid UTF-8 (Go's replacement of invalid sequences is outside the
modelled input space). -/
def jsonEscapeByte (b : Nat) : List Nat :=
  if b = 34 then [92, 34]
  else if b = 92 then [92, 92]
  else if b = 10 then [92, 110]
  else if b = 13 then [92, 114]
  else if b = 9 then [92, 116]
  else if b < 32 || b = 60 || b = 62 || b = 38 then
    [92, 117, 48, 48, hexDigitByte (b / 16), hexDigitByte (b % 16)]
  else [b]

/-- JSON string literal over raw bytes. -/
def jsonStr (bs : List Nat) : List Nat :=
  [34] ++ (bs.flatMap jsonEscapeByte) ++ [34]

/-- JSON string literal of a Lean string. -/
def jsonStrOfString (s : String) : List Nat := jsonStr (strBytes s)

/-- Comma-join rendered fields. -/
def joinComma : List (List Nat) → List Nat
  | [] => []
  | [x] => x
  | x :: xs => x ++ [44] ++ joinComma xs

/-- JSON object from rendered fields. -/
def jsonObj (fields : List (List Nat)) : List Nat :=
  [123] ++ joinComma fields ++ [125]

/-- One rendered field. -/
def jsonField (name : String) (v : List Nat) : List Nat :=
  jsonStrOfString name ++ [58] ++ v

/-- Go marshals `map[string]string` with keys in sorted order. -/
def jsonStringMap (m : List (String × String)) : List Nat :=
  jsonObj ((m.mergeSort (fun a b => a.1 ≤ b.1)).map fun kv =>
    jsonField kv.1 (jsonStrOfString kv.2))

/-- `json.Marshal` of model.RawRequestData: struct field order with the
`omitempty` tags of the source (query, headers, body). -/
def encodeRawRequest (r : RawRequestData) : List Nat :=
  jsonObj
    ([jsonField "method" (jsonStrOfString r.method),
      jsonField "path" (jsonStrOfString r.path)] ++
     (if r.query = "" then [] else [jsonField "query" (jsonStrOfString r.query)]) ++
     (if r.headers = [] then [] else [jsonField "headers" (jsonStringMap r.headers)]) ++
     (if r.body = [] then [] else [jsonField "body" (jsonStr r.body)]))

/-- `json.Marshal` of model.LogEntry: struct field order with `omitempty` on
tags, project_id and raw_request.  Marshalling of these values cannot fail,
so the handler's marshal-error branch is dead and not modelled. -/
def encodeLogEntry (e : LogEntry) : List Nat :=
  jsonObj
    ([jsonField "timestamp" (jsonStrOfString e.timestamp),
      jsonField "service" (jsonStrOfString e.service),
      jsonField "level" (jsonStrOfString e.level),
      jsonField "message" (jsonStrOfString e.message)] ++
     (if e.tags = [] then [] else [jsonField "tags" (jsonStringMap e.tags)]) ++
     (if e.projectID = "" then [] else
       [jsonField "project_id" (jsonStrOfString e.projectID)]) ++
     (match e.rawRequest with
      | none => []
      | some r => [jsonField "raw_request" (encodeRawRequest r)]))

/-- An incoming request as the handler sees it: `body = none` models an
`io.ReadAll` failure; headers carry Go's canonical keys with value lists. -/
structure HttpRequest where
  method : String
  path : String
  rawQuery : String
  headers : List (String × List String)
  body : Option (List Nat)
  deriving Repr

/-- `r.Header.Get(k)`: first value or empty. -/
def headerGet (hs : List (String × List String)) (k : String) : String :=
  match lookupKey hs k with
  | some (v :: _) => v
  | _ => ""

/-- httpinput/input.go lines 152–157: flatten headers, first value per name
(names with an empty value list are skipped). -/
def flattenHeaders (hs : List (String × List String)) :
    List (String × String) :=
  hs.foldr (fun kv acc =>
    match kv.2 with
    | [] => acc
    | v :: _ => (kv.1, v) :: acc) []

/-- Result of one handler invocation: HTTP status, the echoed CORS origin,
and the buffer contents afterwards (`Insert` appends). -/
structure HandlerOut where
  status : Nat
  corsOrigin : String
  buf : List (List Nat)
  deriving Repr

/-- httpinput/input.go `Input.Handler` (lines 138–197): CORS headers, OPTIONS
preflight, body read, header flattening, truncated raw-request record,
structured insert, raw-body insert for non-empty bodies, 202. -/
def handleRequest (now : String) (req : HttpRequest) (buf : List (List Nat)) :
    HandlerOut :=
  let origin := headerGet req.headers "Origin"
  let origin := if origin = "" then "*" else origin
  if req.method = "OPTIONS" then ⟨204, origin, buf⟩
  else
    match req.body with
    | none => ⟨400, origin, buf⟩
    | some body =>
        let headers := flattenHeaders req.headers
        let bodyStr := truncateBody body
        let rawReq : RawRequestData :=
          ⟨req.method, req.path, req.rawQuery, headers, bodyStr⟩
        let entry : LogEntry :=
          ⟨now, "ingest", "info", "raw http request",
            [("path", req.path)], "", some rawReq⟩
        let buf := buf ++ [encodeLogEntry entry]
        let buf := if body.length > 0 then buf ++ [body] else buf
        ⟨202, origin, buf⟩

/-- C3: a non-OPTIONS request whose body read succeeds inserts exactly one
structured raw-request LogEntry (service `ingest`, level `info`, message
`raw http request`, serialized as JSON), then the raw body bytes iff the body
is non-empty, and answers 202 Accepted. -/
theorem c3_handler_inserts (now : String) (req : HttpRequest)
    (buf : List (List Nat)) (body : List Nat)
    (hm : req.method ≠ "OPTIONS") (hb : req.body = some body) :
    ∃ e : LogEntry,
      e.service = "ingest" ∧ e.level = "info" ∧ e.message = "raw http request" ∧
      e.rawRequest = some ⟨req.method, req.path, req.rawQuery,
        flattenHeaders req.headers, truncateBody body⟩ ∧
      (handleRequest now req buf).buf =
        buf ++ [encodeLogEntry e] ++ (if body = [] then [] else [body]) ∧
      (handleRequest now req buf).status = 202 := by
  refine ⟨⟨now, "ingest", "info", "raw http request",
    [("path", req.path)], "", some ⟨req.method, req.path, req.rawQuery,
      flattenHeaders req.headers, truncateBody body⟩⟩,
    rfl, rfl, rfl, rfl, ?_, ?_⟩
  · simp only [handleRequest, hb, if_neg hm]
    by_cases hbe : body = []
    · simp [hbe]
    · rw [if_pos (List.length_pos.mpr hbe), if_neg hbe]
  · simp only [handleRequest, hb, if_neg hm]

/-- C3 witness: a POST with empty body produces one insert and 202; the same
POST with a one-byte body produces the structured record then the raw byte. -/
theorem c3_handler_inserts_witness :
    (∃ e : LogEntry,
      e.service = "ingest" ∧ e.level = "info" ∧ e.message = "raw http request" ∧
      e.rawRequest = some ⟨"POST", "/ingest", "",
        flattenHeaders ([] : List (String × List String)), truncateBody []⟩ ∧
      (handleRequest "t0" ⟨"POST", "/ingest", "", [], some []⟩ []).buf =
        [] ++ [encodeLogEntry e] ++ (if ([] : List Nat) = [] then [] else [[]]) ∧
      (handleRequest "t0" ⟨"POST", "/ingest", "", [], some []⟩ []).status = 202) ∧
    (∃ e : LogEntry,
      e.service = "ingest" ∧ e.level = "info" ∧ e.message = "raw http request" ∧
      e.rawRequest = some ⟨"POST", "/ingest", "",
        flattenHeaders ([] : List (String × List String)), truncateBody [104]⟩ ∧
      (handleRequest "t0" ⟨"POST", "/ingest", "", [], some [104]⟩ []).buf =
        [] ++ [encodeLogEntry e] ++ (if ([104] : List Nat) = [] then [] else [[104]]) ∧
      (handleRequest "t0" ⟨"POST", "/ingest", "", [], some [104]⟩ []).status = 202) :=
  ⟨c3_handler_inserts "t0" ⟨"POST", "/ingest", "", [], some []⟩ [] []
      (by decide) rfl,
   c3_handler_inserts "t0" ⟨"POST", "/ingest", "", [], some [104]⟩ [] [104]
      (by decide) rfl⟩

/-- C4: the body stored in the raw-request record is the body unchanged when
its byte length is at most 64 KiB, and the first 65536 bytes followed by the
literal marker `... [truncated]` when longer; in particular exactly 64 KiB is
unmarked and 64 KiB + 1 is truncated with the marker. -/
theorem c4_body_truncation (body : List Nat) :
    (body.length ≤ maxBodyInRawLog → truncateBody body = body) ∧
    (body.length > maxBodyInRawLog →
      truncateBody body = body.take maxBodyInRawLog ++ strBytes "... [truncated]") := by
  constructor
  · intro h
    unfold truncateBody
    rw [if_neg (by omega)]
  · intro h
    unfold truncateBody
    rw [if_pos h]

/-- C4 witness: a body of exactly 64 KiB is stored unchanged, one of
64 KiB + 1 bytes is cut at 64 KiB with the marker appended. -/
theorem c4_body_truncation_witness :
    ((List.replicate maxBodyInRawLog 0).length ≤ maxBodyInRawLog ∧
      truncateBody (List.replicate maxBodyInRawLog 0) =
        List.replicate maxBodyInRawLog 0) ∧
    ((List.replicate (maxBodyInRawLog + 1) 0).length > maxBodyInRawLog ∧
      truncateBody (List.replicate (maxBodyInRawLog + 1) 0) =
        (List.replicate (maxBodyInRawLog + 1) 0).take maxBodyInRawLog ++
          strBytes "... [truncated]") :=
  ⟨⟨by simp, (c4_body_truncation _).1 (by simp)⟩,
   ⟨by simp, (c4_body_truncation _).2 (by simp)⟩⟩

/-- The object-store contents: key → stored bytes. -/
def O3Store := List (String × List Nat)

/-- storage/o3.go `PutObject`: store the given bytes under the key
(s3 put replaces). -/
def putObject (s : O3Store) (key : String) (data : List Nat) : O3Store :=
  setKey s key data

/-- storage/o3.go `GetObject`: download the bytes stored under the key. -/
def getObject (s : O3Store) (key : String) : Option (List Nat) :=
  lookupKey s key

/-- The gzip reader (`gzip.NewReader` + `io.ReadAll`) as the library contract
GetObjectLogs composes: decompression that can fail on invalid input.  The
compress/gzip package is an external collaborator of the repository (spec
§1), so it enters the model as this interface. -/
structure GzipLib where
  gunzip : List Nat → Option (List Nat)

/-- `json.Unmarshal` into `[]model.LogEntry`, as the library contract. -/
structure JsonLib where
  decodeEntries : List Nat → Option (List LogEntry)

/-- Failure cases of GetObjectLogs (download, gzip step, json step). -/
inductive GetLogsError where
  | notFound
  | gzip
  | json
  deriving DecidableEq, Repr

/-- storage/o3.go `GetObjectLogs` (lines 143–162): download, gunzip,
JSON-decode as a list; each failing step short-circuits with its error. -/
def getObjectLogs (gz : GzipLib) (js : JsonLib) (s : O3Store) (key : String) :
    Except GetLogsError (List LogEntry) :=
  match getObject s key with
  | none => Except.error GetLogsError.notFound
  | some raw =>
      match gz.gunzip raw with
      | none => Except.error GetLogsError.gzip
      | some decoded =>
          match js.decodeEntries decoded with
          | none => Except.error GetLogsError.json
          | some entries => Except.ok entries

/-- C5: uploading `comp (enc es)` — the gzip compression of a JSON
serialization of the entries, characterized by the two library facts — and
then reading the key back yields exactly `es`; and whenever the stored bytes
fail the gzip step or the JSON step, GetObjectLogs fails with the
corresponding Corrupt error. -/
theorem c5_put_get_roundtrip (gz : GzipLib) (js : JsonLib)
    (comp : List Nat → List Nat) (enc : List LogEntry → List Nat)
    (s : O3Store) (key : String) (es : List LogEntry)
    (hgz : gz.gunzip (comp (enc es)) = some (enc es))
    (hjs : js.decodeEntries (enc es) = some es) :
    getObjectLogs gz js (putObject s key (comp (enc es))) key = Except.ok es ∧
    (∀ bad : List Nat, gz.gunzip bad = none →
      getObjectLogs gz js (putObject s key bad) key =
        Except.error GetLogsError.gzip) ∧
    (∀ (bad dec : List Nat), gz.gunzip bad = some dec →
      js.decodeEntries dec = none →
      getObjectLogs gz js (putObject s key bad) key =
        Except.error GetLogsError.json) := by
  refine ⟨?_, ?_, ?_⟩
  · simp only [getObjectLogs, getObject, putObject, lookupKey_setKey_self, hgz, hjs]
  · intro bad hbad
    simp only [getObjectLogs, getObject, putObject, lookupKey_setKey_self, hbad]
  · intro bad dec hdec hjson
    simp only [getObjectLogs, getObject, putObject, lookupKey_setKey_self, hdec, hjson]

/-- C5 witness: a toy instantiation of the library contracts — gzip as a
two-byte magic header, the serialized entry list as the byte `[7]` — run
through PutObject/GetObjectLogs on an empty store. -/
theorem c5_put_get_roundtrip_witness :
    getObjectLogs
        ⟨fun b => match b with | 31 :: 139 :: r => some r | _ => none⟩
        ⟨fun d => if d = [7] then some [⟨"t", "s", "l", "m", [], "", none⟩] else none⟩
        (putObject [] "k" (31 :: 139 :: [7])) "k" =
      Except.ok [⟨"t", "s", "l", "m", [], "", none⟩] :=
  (c5_put_get_roundtrip
    ⟨fun b => match b with | 31 :: 139 :: r => some r | _ => none⟩
    ⟨fun d => if d = [7] then some [⟨"t", "s", "l", "m", [], "", none⟩] else none⟩
    (fun b => 31 :: 139 :: b) (fun _ => [7]) [] "k"
    [⟨"t", "s", "l", "m", [], "", none⟩] rfl (by decide)).1

end Akavelog
